import Mathlib

/-!
Verification development for the CMC_Review frontend core:
the section locator (`detectMatchedPage`), the diff reconciliation
component (`DiffInline`: `computeFinalText`, initial decision states,
`updateState`), and the cache-aware highlight handler
(`handleHighlightSection` together with its producer-response
continuation) from `App_fixed.js`.

All JavaScript functions are shallowly embedded as executable Lean
functions over `String` / `List Char`; 32-bit JavaScript integer
arithmetic is modelled with `Nat` and explicit `% 2^32`.
-/

set_option maxHeartbeats 1000000

namespace CMC

/-! ## Normalizer

Embedding of the normalization chain used both by the standalone
`normalize` helper (CmcViewer.jsx) and inline by `detectMatchedPage`:
`text.replace(hyphenBreakRegex, "").replace(wsRunRegex, " ").toLowerCase().trim()`,
where `hyphenBreakRegex` is the global regex matching `-` `\s*` `\n` and
`wsRunRegex` is the global regex matching `\s+`.
JavaScript `\s` is modelled by the ASCII whitespace characters; `toLowerCase`
is modelled by `Char.toLower` (ASCII case folding). -/

/-- ASCII model of the JavaScript `\s` whitespace class. -/
def isJsWs (c : Char) : Bool :=
  c == ' ' || c == '\t' || c == '\n' || c == '\r' || c == '\x0b' || c == '\x0c'

/-- Length of the match of the regex fragment `\s*\n` at the head of the
list, if any. Backtracking greedy matching means the match extends through
the last newline inside the leading whitespace run. -/
def lastNlLen : List Char → Option Nat
  | [] => none
  | c :: cs =>
    if isJsWs c then
      match lastNlLen cs with
      | some n => some (n + 1)
      | none => if c == '\n' then some 1 else none
    else none

/-- Structural worker for `elimHyphen`: the fuel argument only bounds the
recursion depth (each step consumes at least one character, so fuel equal to
the list length never runs out). -/
def elimHyphenFuel : Nat → List Char → List Char
  | 0, cs => cs
  | _ + 1, [] => []
  | fuel + 1, c :: cs =>
    if c == '-' then
      match lastNlLen cs with
      | some n => elimHyphenFuel fuel (cs.drop n)
      | none => c :: elimHyphenFuel fuel cs
    else c :: elimHyphenFuel fuel cs

/-- Global replace of the `-` `\s*` `\n` regex by the empty string: at each hyphen, if
`\s*` `\n` matches right after it, drop the hyphen and the matched run and
continue scanning after the match. -/
def elimHyphen (cs : List Char) : List Char :=
  elimHyphenFuel cs.length cs

/-- Structural worker for `collapseWs`; the flag records whether the
previous character was whitespace (i.e. whether we are inside a run that
already emitted its single space). -/
def collapseWsAux : Bool → List Char → List Char
  | _, [] => []
  | prevWs, c :: cs =>
    if isJsWs c then
      if prevWs then collapseWsAux true cs else ' ' :: collapseWsAux true cs
    else c :: collapseWsAux false cs

/-- Global replace of the `\s+` regex by a single space: each maximal
whitespace run collapses to one `' '`. -/
def collapseWs (cs : List Char) : List Char :=
  collapseWsAux false cs

/-- JavaScript `String.prototype.trim`: strip whitespace at both ends. -/
def trimChars (cs : List Char) : List Char :=
  ((cs.dropWhile isJsWs).reverse.dropWhile isJsWs).reverse

/-- The full normalization chain on character lists, in source order:
hyphenation removal, whitespace collapse, lower-casing, trim. -/
def normalizeChars (cs : List Char) : List Char :=
  trimChars ((collapseWs (elimHyphen cs)).map Char.toLower)

/-- `normalize(text)` from CmcViewer.jsx, on a `String` argument. -/
def normalize (s : String) : String :=
  ⟨normalizeChars s.data⟩

/-- JavaScript `text.replace(...)` throws a `TypeError` when `text` is
`undefined`; `normalizeJs` models `normalize` applied to a possibly
undefined argument (`none` = `undefined`), returning the thrown error in
`Except.error`. -/
def normalizeJs : Option String → Except String String
  | none => .error "TypeError: Cannot read properties of undefined"
  | some s => .ok (normalize s)

/-- JavaScript `s.split(" ")`: split on every single space character. -/
def splitOnSpace : List Char → List (List Char)
  | [] => [[]]
  | c :: cs =>
    match splitOnSpace cs with
    | [] => [[c]]
    | t :: ts => if c == ' ' then [] :: t :: ts else (c :: t) :: ts

/-- `contextNorm.split(" ").filter((w) => w.length > 5)`. -/
def tokenize (s : String) : List String :=
  ((splitOnSpace s.data).map fun w => (⟨w⟩ : String)).filter fun w => 5 < w.length

/-- Prefix test for character lists (needle first). -/
def isPrefChars : List Char → List Char → Bool
  | [], _ => true
  | _ :: _, [] => false
  | a :: as, b :: bs => a == b && isPrefChars as bs

/-- JavaScript `hay.includes(needle)`: substring containment. -/
def containsSub (hay needle : List Char) : Bool :=
  match hay with
  | [] => isPrefChars needle []
  | _ :: t => isPrefChars needle hay || containsSub t needle

/-! ## PageLocator (`detectMatchedPage`) -/

/-- One entry of `documentData.pages`: `{ page_number, text }`. -/
structure PageRecord where
  page_number : Nat
  text : String
deriving DecidableEq

/-- Per-page score: the number of excerpt tokens contained as substrings of
the page's normalized text (`pageNorm.includes(w)` counting loop). -/
def pageScore (tokens : List String) (pageText : String) : Nat :=
  tokens.countP fun w => containsSub (normalize pageText).data w.data

/-- `detectMatchedPage(sectionText, documentData)` from the page-locator
helper: guard on empty excerpt, tokenize the normalized excerpt, then keep
a running best `(bestPage, bestScore)` updated only on `score > bestScore`,
starting from `(null, 0)`. -/
def detectMatchedPage (sectionText : String) (pages : List PageRecord) : Option Nat :=
  if sectionText = "" then none
  else
    let tokens := tokenize (normalize sectionText)
    if tokens.length = 0 then none
    else
      (pages.foldl
        (fun best p =>
          let score := pageScore tokens p.text
          if best.2 < score then (some p.page_number, score) else best)
        ((none : Option Nat), 0)).1

/-! Spec-side locator, written from the specification's words: the chosen
page is the first page in index order attaining the strictly highest score
when that maximum is positive, and `null` otherwise. -/

/-- The maximum page score over the index (0 when the index is empty). -/
def bestScoreOf (tokens : List String) (pages : List PageRecord) : Nat :=
  (pages.map fun p => pageScore tokens p.text).foldl max 0

/-- Locator as worded by the spec: first page attaining the strictly
highest score, provided that maximum is greater than 0. -/
def locateSpec (sectionText : String) (pages : List PageRecord) : Option Nat :=
  if sectionText = "" then none
  else
    let tokens := tokenize (normalize sectionText)
    if tokens.length = 0 then none
    else
      let M := bestScoreOf tokens pages
      if M = 0 then none
      else (pages.find? fun p => pageScore tokens p.text == M).map PageRecord.page_number

/-! Sanity checks against the spec's test vectors. -/

example :
    detectMatchedPage "bananas crocodile diagram"
      [⟨1, "alphabet bananas"⟩, ⟨2, "alphabet crocodile diagram"⟩] = some 2 := by decide

example :
    detectMatchedPage "a an the"
      [⟨1, "alphabet bananas"⟩, ⟨2, "alphabet crocodile diagram"⟩] = none := by decide

example :
    detectMatchedPage "bananas crocodile"
      [⟨1, "bananas crocodile"⟩, ⟨2, "bananas crocodile"⟩] = some 1 := by decide

example : normalize "Foo-\n  bar   Baz " = "foo bar baz" := by decide

example : normalize "hyphen-\nated Word" = "hyphenated word" := by decide

/-! ### Proof that the running-best fold selects the first strict argmax -/

/-- Running maximum of `f` over a page list, seeded with `s`. -/
def runMax (f : PageRecord → Nat) (s : Nat) (ps : List PageRecord) : Nat :=
  ps.foldl (fun a p => max a (f p)) s

theorem runMax_nil (f : PageRecord → Nat) (s : Nat) : runMax f s [] = s := rfl

theorem runMax_cons (f : PageRecord → Nat) (s : Nat) (p : PageRecord)
    (ps : List PageRecord) : runMax f s (p :: ps) = runMax f (max s (f p)) ps := rfl

theorem le_runMax (f : PageRecord → Nat) (ps : List PageRecord) :
    ∀ s : Nat, s ≤ runMax f s ps := by
  induction ps with
  | nil => intro s; exact Nat.le_refl s
  | cons p ps ih =>
    intro s
    exact Nat.le_trans (Nat.le_max_left s (f p)) (ih (max s (f p)))

theorem fold_best_eq (f : PageRecord → Nat) :
    ∀ (ps : List PageRecord) (b : Option Nat) (s : Nat),
      ps.foldl (fun best p => if best.2 < f p then (some p.page_number, f p) else best) (b, s)
      = if runMax f s ps ≤ s then (b, s)
        else ((ps.find? fun p => f p == runMax f s ps).map PageRecord.page_number,
              runMax f s ps) := by
  intro ps
  induction ps with
  | nil => intro b s; simp [runMax_nil]
  | cons p ps ih =>
    intro b s
    rw [List.foldl_cons, runMax_cons]
    by_cases h : s < f p
    · have hmax : max s (f p) = f p := Nat.max_eq_right (Nat.le_of_lt h)
      rw [hmax]
      simp only [h, if_pos]
      rw [ih (some p.page_number) (f p)]
      have hfp_le : f p ≤ runMax f (f p) ps := le_runMax f ps (f p)
      by_cases h2 : runMax f (f p) ps ≤ f p
      · have hM : runMax f (f p) ps = f p := Nat.le_antisymm h2 hfp_le
        rw [if_pos h2, if_neg (by omega)]
        rw [List.find?_cons_of_pos _ (by simp [hM]), hM]
        simp
      · rw [if_neg h2, if_neg (by omega)]
        rw [List.find?_cons_of_neg _ (by simp; omega)]
    · have hle : f p ≤ s := Nat.le_of_not_lt h
      have hmax : max s (f p) = s := Nat.max_eq_left hle
      rw [hmax]
      simp only [h, if_neg, if_false]
      rw [ih b s]
      by_cases h2 : runMax f s ps ≤ s
      · rw [if_pos h2, if_pos h2]
      · rw [if_neg h2, if_neg h2]
        rw [List.find?_cons_of_neg _ (by simp; omega)]

/-- C1: for every excerpt and document index, `detectMatchedPage` returns
the page number of the first page in index order attaining the strictly
highest token-containment score when that maximum is greater than 0, and
`null` otherwise (so a tie never overrides an earlier page and a score of 0
is never selected): it coincides with the locator as worded by the spec. -/
theorem detectMatchedPage_eq_locateSpec (sectionText : String)
    (pages : List PageRecord) :
    detectMatchedPage sectionText pages = locateSpec sectionText pages := by
  unfold detectMatchedPage locateSpec
  by_cases hempty : sectionText = ""
  · simp [hempty]
  · rw [if_neg hempty, if_neg hempty]
    set tokens := tokenize (normalize sectionText) with htok
    by_cases htl : tokens.length = 0
    · simp [htl]
    · rw [if_neg htl, if_neg htl]
      have hbs : bestScoreOf tokens pages = runMax (fun p => pageScore tokens p.text) 0 pages := by
        unfold bestScoreOf runMax
        rw [List.foldl_map]
      have hfold := fold_best_eq (fun p => pageScore tokens p.text) pages none 0
      simp only at hfold
      rw [show (pages.foldl
            (fun best p =>
              let score := pageScore tokens p.text
              if best.2 < score then (some p.page_number, score) else best)
            ((none : Option Nat), 0)) =
          (pages.foldl
            (fun best p =>
              if best.2 < pageScore tokens p.text then (some p.page_number, pageScore tokens p.text) else best)
            ((none : Option Nat), 0)) from rfl]
      rw [hfold, hbs]
      by_cases hz : runMax (fun p => pageScore tokens p.text) 0 pages = 0
      · rw [hz]; simp
      · rw [if_neg (by omega), if_neg hz]

/-! ## DiffReconciler (`DiffInline`)

Embedding of the diff reconciliation component: per-segment decision
states, the final-text derivation (the `useEffect` that folds over
`diffSegments` with `states[idx]`), and `updateState`. -/

/-- One element of `diffSegments`: `{ op, orig, suggested }`. The `op`
field is a raw string, as in the source, so unrecognized operation values
are representable. -/
structure DiffSegment where
  op : String
  orig : String
  suggested : String
deriving DecidableEq

/-- Decision state for one segment; the source stores the strings
"accepted" / "rejected" / "pending". -/
inductive Decision
  | accepted
  | rejected
  | pending
deriving DecidableEq

/-- The contribution of one segment to the final text, given the decision
stored at its index (`none` models a JavaScript `undefined` lookup).
Mirrors the `switch (seg.op)` in the final-text `useEffect`. -/
def segText (seg : DiffSegment) (st : Option Decision) : String :=
  if seg.op = "equal" then seg.orig
  else if seg.op = "delete" then
    if st = some .rejected ∨ st = some .pending then seg.orig else ""
  else if seg.op = "replace" then
    if st = some .accepted then seg.suggested else seg.orig
  else if seg.op = "insert" then
    if st = some .accepted then seg.suggested else ""
  else seg.orig

/-- The final-text derivation: `diffSegments.forEach((seg, idx) => ...)`
accumulating `finalText`, looking up `states[idx]` at each step. -/
def computeFinalText (segs : List DiffSegment) (states : List Decision) : String :=
  (segs.foldl (fun acc seg => (acc.1 ++ segText seg states[acc.2]?, acc.2 + 1))
    (("", 0) : String × Nat)).1

/-- Recursive characterization of the final-text loop: peel one segment and
the head of the decision list at a time. -/
def finalTextGo : List DiffSegment → List Decision → String
  | [], _ => ""
  | seg :: segs, sts => segText seg sts.head? ++ finalTextGo segs sts.tail

/-- Per-segment emission rule as worded by the claim: `originalSpan` for
`equal` regardless of decision; empty for an accepted `delete` and
`originalSpan` for a pending or rejected `delete`; `suggestedSpan` for an
accepted `replace` and `originalSpan` otherwise; `suggestedSpan` for an
accepted `insert` and empty otherwise; `originalSpan` for any unrecognized
op. -/
def emitSpec (seg : DiffSegment) (d : Decision) : String :=
  if seg.op = "equal" then seg.orig
  else if seg.op = "delete" then
    if d = .accepted then "" else seg.orig
  else if seg.op = "replace" then
    if d = .accepted then seg.suggested else seg.orig
  else if seg.op = "insert" then
    if d = .accepted then seg.suggested else ""
  else seg.orig

/-- Claim-side final text: per-segment emissions, in order, concatenated. -/
def finalTextSpec (segs : List DiffSegment) (decs : List Decision) : String :=
  ((segs.zip decs).map fun p => emitSpec p.1 p.2).foldr (· ++ ·) ""

/-- The initial decision assignment produced when new segments arrive
(the reset `useEffect`): `equal` segments start `accepted`, everything else
`pending`. -/
def initStates (segs : List DiffSegment) : List Decision :=
  segs.map fun seg => if seg.op = "equal" then .accepted else .pending

/-- The state update performed by `updateState(idx, newState, ...)`:
copy the array and write `newState` at `idx`, with no validation
(the logging call has no effect on state and is omitted). -/
def updateState (states : List Decision) (idx : Nat) (newState : Decision) : List Decision :=
  states.set idx newState

/-- Concatenation of the segments' original spans, in order. -/
def concatOrig (segs : List DiffSegment) : String :=
  (segs.map DiffSegment.orig).foldr (· ++ ·) ""

/-! ### Helper lemmas for the final-text loop -/

theorem str_append_empty (s : String) : s ++ "" = s := by
  cases s with
  | mk data => show String.mk (data ++ []) = String.mk data; rw [List.append_nil]

theorem str_empty_append (s : String) : "" ++ s = s := by
  cases s with
  | mk data => rfl

theorem str_append_assoc (a b c : String) : a ++ b ++ c = a ++ (b ++ c) := by
  cases a with
  | mk da =>
    cases b with
    | mk db =>
      cases c with
      | mk dc => show String.mk (da ++ db ++ dc) = String.mk (da ++ (db ++ dc))
                 rw [List.append_assoc]

theorem head?_drop_eq (sts : List Decision) : ∀ n : Nat, (sts.drop n).head? = sts[n]? := by
  induction sts with
  | nil => intro n; cases n <;> rfl
  | cons s sts ih =>
    intro n
    cases n with
    | zero => simp
    | succ m => simp [ih m]

theorem tail_drop_eq (sts : List Decision) : ∀ n : Nat, (sts.drop n).tail = sts.drop (n + 1) := by
  induction sts with
  | nil => intro n; cases n <;> rfl
  | cons s sts ih =>
    intro n
    cases n with
    | zero => rfl
    | succ m => simp [ih m]

theorem computeFT_fold (segs : List DiffSegment) :
    ∀ (sts : List Decision) (acc : String) (n : Nat),
      (segs.foldl (fun a seg => (a.1 ++ segText seg sts[a.2]?, a.2 + 1)) (acc, n)).1
      = acc ++ finalTextGo segs (sts.drop n) := by
  induction segs with
  | nil => intro sts acc n; simp [finalTextGo, str_append_empty]
  | cons seg segs ih =>
    intro sts acc n
    rw [List.foldl_cons]
    rw [ih sts (acc ++ segText seg sts[n]?) (n + 1)]
    rw [str_append_assoc]
    show acc ++ (segText seg sts[n]? ++ finalTextGo segs (sts.drop (n + 1)))
        = acc ++ finalTextGo (seg :: segs) (sts.drop n)
    rw [finalTextGo, head?_drop_eq, tail_drop_eq]

theorem computeFinalText_eq_go (segs : List DiffSegment) (sts : List Decision) :
    computeFinalText segs sts = finalTextGo segs sts := by
  unfold computeFinalText
  rw [computeFT_fold segs sts "" 0]
  rw [List.drop_zero, str_empty_append]

theorem segText_some_eq_emitSpec (seg : DiffSegment) (d : Decision) :
    segText seg (some d) = emitSpec seg d := by
  unfold segText emitSpec
  cases d <;> split_ifs <;> simp_all

/-- C2: for segment and decision lists of matching length, the final-text
derivation emits, per segment in order and concatenated, exactly the
per-op/per-decision rule stated by the claim (equal → originalSpan;
delete → empty iff accepted; replace → suggestedSpan iff accepted, else
originalSpan; insert → suggestedSpan iff accepted, else empty; unrecognized
op → originalSpan). -/
theorem computeFinalText_spec :
    ∀ (segs : List DiffSegment) (decs : List Decision),
      segs.length = decs.length →
      computeFinalText segs decs = finalTextSpec segs decs := by
  intro segs
  induction segs with
  | nil => intro decs h; cases decs <;> rfl
  | cons seg segs ih =>
    intro decs h
    cases decs with
    | nil => simp at h
    | cons d ds =>
      rw [computeFinalText_eq_go]
      show segText seg (some d) ++ finalTextGo segs ds = finalTextSpec (seg :: segs) (d :: ds)
      rw [segText_some_eq_emitSpec, ← computeFinalText_eq_go segs ds]
      rw [ih ds (by simpa using h)]
      rfl

/-- Witness for C2 at the spec's reconstruction example: segments
`[{equal,"A "},{replace,"B","C"},{insert,""," D"}]` with decisions
`[accepted, accepted, rejected]` derive `"A C"`. -/
theorem computeFinalText_spec_witness :
    ([⟨"equal", "A ", ""⟩, ⟨"replace", "B", "C"⟩, ⟨"insert", "", " D"⟩] : List DiffSegment).length
      = ([.accepted, .accepted, .rejected] : List Decision).length ∧
    computeFinalText [⟨"equal", "A ", ""⟩, ⟨"replace", "B", "C"⟩, ⟨"insert", "", " D"⟩]
        [.accepted, .accepted, .rejected]
      = finalTextSpec [⟨"equal", "A ", ""⟩, ⟨"replace", "B", "C"⟩, ⟨"insert", "", " D"⟩]
        [.accepted, .accepted, .rejected] ∧
    computeFinalText [⟨"equal", "A ", ""⟩, ⟨"replace", "B", "C"⟩, ⟨"insert", "", " D"⟩]
        [.accepted, .accepted, .rejected] = "A C" :=
  ⟨by decide,
   computeFinalText_spec _ _ (by decide),
   by decide⟩

/-! ### `updateState` performs no equal-segment or range validation (C7) -/

theorem segText_equal_op (seg : DiffSegment) (hop : seg.op = "equal") :
    ∀ st : Option Decision, segText seg st = seg.orig := by
  intro st
  unfold segText
  rw [if_pos hop]

theorem getElem?_set_self_dec :
    ∀ (l : List Decision) (i : Nat) (d : Decision),
      i < l.length → (l.set i d)[i]? = some d := by
  intro l
  induction l with
  | nil => intro i d h; simp at h
  | cons c cs ih =>
    intro i d h
    cases i with
    | zero => simp
    | succ j =>
      simp only [List.set_cons_succ, List.getElem?_cons_succ]
      exact ih j d (by simpa using h)

theorem go_set_equal :
    ∀ (segs : List DiffSegment) (sts : List Decision) (i : Nat) (d : Decision),
      (segs[i]?.all fun seg => seg.op == "equal") = true →
      finalTextGo segs (sts.set i d) = finalTextGo segs sts := by
  intro segs
  induction segs with
  | nil => intros; rfl
  | cons seg segs ih =>
    intro sts i d h
    cases i with
    | zero =>
      cases sts with
      | nil => rfl
      | cons c cs =>
        have hop : seg.op = "equal" := by simpa using h
        show segText seg (some d) ++ finalTextGo segs cs
            = segText seg (some c) ++ finalTextGo segs cs
        rw [segText_equal_op seg hop, segText_equal_op seg hop]
    | succ j =>
      cases sts with
      | nil => rfl
      | cons c cs =>
        show segText seg (some c) ++ finalTextGo segs (cs.set j d)
            = segText seg (some c) ++ finalTextGo segs cs
        rw [ih cs j d (by simpa using h)]

/-- C7 counterexample: for a one-segment list whose only segment has
op `equal`, `updateState` applied at index 0 is not a no-op (and raises no
error): the decision change is recorded, contradicting the claim that a
decision change is never recorded for an `equal` segment. -/
theorem updateState_equal_recorded :
    (([⟨"equal", "A", ""⟩] : List DiffSegment)[0]?.all fun seg => seg.op == "equal") = true ∧
    updateState (initStates [⟨"equal", "A", ""⟩]) 0 .rejected
      ≠ initStates [⟨"equal", "A", ""⟩] ∧
    (updateState (initStates [⟨"equal", "A", ""⟩]) 0 .rejected)[0]? = some .rejected := by
  decide

/-- C7 amended: `updateState` records the requested decision at any
in-range index with no validation whatsoever — including indices of
`equal` segments; however, since an `equal` segment emits its original
span regardless of its stored decision, the derived final text is
unchanged by such a write. -/
theorem updateState_unchecked (segs : List DiffSegment) (sts : List Decision)
    (i : Nat) (d : Decision) (h1 : i < sts.length)
    (h2 : (segs[i]?.all fun seg => seg.op == "equal") = true) :
    (updateState sts i d)[i]? = some d ∧
    computeFinalText segs (updateState sts i d) = computeFinalText segs sts := by
  constructor
  · exact getElem?_set_self_dec sts i d h1
  · rw [computeFinalText_eq_go, computeFinalText_eq_go]
    exact go_set_equal segs sts i d h2

/-- Witness for the amended C7 at a concrete equal segment. -/
theorem updateState_unchecked_witness :
    (updateState [Decision.accepted] 0 .rejected)[0]? = some Decision.rejected ∧
    computeFinalText [⟨"equal", "A", ""⟩] (updateState [.accepted] 0 .rejected)
      = computeFinalText [⟨"equal", "A", ""⟩] [.accepted] :=
  updateState_unchecked _ _ _ _ (by decide) (by decide)

/-! ### Initial decisions reproduce the original text (C10) -/

theorem segText_init (seg : DiffSegment) (hins : seg.op = "insert" → seg.orig = "") :
    segText seg (some (if seg.op = "equal" then Decision.accepted else Decision.pending))
      = seg.orig := by
  by_cases heq : seg.op = "equal"
  · rw [if_pos heq]; exact segText_equal_op seg heq (some .accepted)
  · rw [if_neg heq]
    unfold segText
    rw [if_neg heq]
    by_cases hdel : seg.op = "delete"
    · rw [if_pos hdel]; simp
    · rw [if_neg hdel]
      by_cases hrep : seg.op = "replace"
      · rw [if_pos hrep]; simp
      · rw [if_neg hrep]
        by_cases hins' : seg.op = "insert"
        · rw [if_pos hins', if_neg (by simp), hins hins']
        · rw [if_neg hins']

/-- C10 counterexample: an `insert` segment with a non-empty original span
breaks the claim as stated — under the initial decision assignment the
derived text drops the span, so it differs from the concatenation of
original spans. -/
theorem initFinalText_insert_counterexample :
    computeFinalText [⟨"insert", "X", "Y"⟩] (initStates [⟨"insert", "X", "Y"⟩])
      ≠ concatOrig [⟨"insert", "X", "Y"⟩] := by decide

/-- C10 amended: for every list of diff segments in which each `insert`
segment carries an empty original span (as the external diff producer
guarantees), the final text derived under the initial decision assignment
(equal → accepted, others → pending) equals the concatenation of the
segments' original spans in order. -/
theorem initFinalText_eq_orig :
    ∀ segs : List DiffSegment,
      (∀ seg ∈ segs, seg.op = "insert" → seg.orig = "") →
      computeFinalText segs (initStates segs) = concatOrig segs := by
  intro segs
  induction segs with
  | nil => intro _; rfl
  | cons seg segs ih =>
    intro h
    rw [computeFinalText_eq_go]
    show segText seg (some (if seg.op = "equal" then Decision.accepted else Decision.pending))
        ++ finalTextGo segs (initStates segs) = seg.orig ++ concatOrig segs
    rw [segText_init seg (h seg (by simp))]
    rw [← computeFinalText_eq_go, ih (fun s hs => h s (by simp [hs]))]

/-- Witness for the amended C10 on a four-op segment list. -/
theorem initFinalText_eq_orig_witness :
    (∀ seg ∈ ([⟨"equal", "A ", ""⟩, ⟨"delete", "B", ""⟩, ⟨"replace", "C", "D"⟩,
               ⟨"insert", "", " E"⟩] : List DiffSegment),
        seg.op = "insert" → seg.orig = "") ∧
    computeFinalText
        [⟨"equal", "A ", ""⟩, ⟨"delete", "B", ""⟩, ⟨"replace", "C", "D"⟩, ⟨"insert", "", " E"⟩]
        (initStates [⟨"equal", "A ", ""⟩, ⟨"delete", "B", ""⟩, ⟨"replace", "C", "D"⟩,
                     ⟨"insert", "", " E"⟩])
      = concatOrig [⟨"equal", "A ", ""⟩, ⟨"delete", "B", ""⟩, ⟨"replace", "C", "D"⟩,
                    ⟨"insert", "", " E"⟩] :=
  ⟨by decide, initFinalText_eq_orig _ (by decide)⟩

/-! ## Highlight handler (`handleHighlightSection`, App_fixed.js)

The handler is an async function with exactly one suspension point (the
`await axios.post`). It is embedded as two atomic phases over an explicit
application state: `handleCall` runs the synchronous prefix (guard, cache
lookup, and — on a miss — issuing the producer call), and `handleRespond`
runs the continuation after the awaited network response. Interleavings of
concurrent invocations are arbitrary sequences of these atomic phases
(`runEvents`), matching the single-threaded cooperative event-loop model. -/

/-- Digit characters used by JavaScript `Number.prototype.toString(36)`. -/
def digit36 (d : Nat) : Char :=
  if d < 10 then Char.ofNat (48 + d) else Char.ofNat (87 + d)

/-- Structural base-36 conversion worker; the fuel only bounds recursion
depth (fuel `n` is always sufficient since the value shrinks by division). -/
def toDigits36Fuel : Nat → Nat → List Char → List Char
  | 0, n, acc => digit36 n :: acc
  | fuel + 1, n, acc =>
    if n < 36 then digit36 n :: acc
    else toDigits36Fuel fuel (n / 36) (digit36 (n % 36) :: acc)

/-- JavaScript `n.toString(36)` for an unsigned 32-bit value. -/
def toString36 (n : Nat) : String :=
  ⟨toDigits36Fuel n n []⟩

/-- The djb2-style cache key from App_fixed.js:
`h = 5381; h = (h * 33) ^ str.charCodeAt(i); return (h >>> 0).toString(36)`.
32-bit JavaScript bitwise arithmetic is modelled on `Nat` with explicit
`% 2^32` (signed vs. unsigned representation does not affect the final
`>>> 0` value); `charCodeAt` (UTF-16 units) is modelled by the character's
code point, which coincides for BMP text. -/
def hashKey (s : String) : String :=
  toString36
    ((s.data.foldl
        (fun h c => (((h * 33) % 4294967296) ^^^ (c.toNat % 4294967296)) % 4294967296)
        5381) % 4294967296)

/-- A stored cache value: `{ blobUrl, text }`. -/
structure CacheEntry where
  blobUrl : String
  text : String
deriving DecidableEq

/-- An in-flight producer call: the `axios.post` issued for `key` with the
raw excerpt `text`, whose continuation is still pending. -/
structure PendingCall where
  key : String
  text : String
deriving DecidableEq

/-- First-match lookup in the insertion-ordered association list modelling
the JavaScript `Map`. -/
def mapGet : List (String × CacheEntry) → String → Option CacheEntry
  | [], _ => none
  | (k, v) :: rest, key => if k = key then some v else mapGet rest key

/-- `Map.prototype.set`: overwrite in place if the key exists, else append. -/
def mapSet : List (String × CacheEntry) → String → CacheEntry → List (String × CacheEntry)
  | [], key, v => [(key, v)]
  | (k, w) :: rest, key, v =>
    if k = key then (key, v) :: rest else (k, w) :: mapSet rest key v

/-- `URL.createObjectURL`: a fresh opaque object URL for the received
blob, modelled as tagging the blob bytes. -/
def createObjectURL (blob : String) : String :=
  "blob:" ++ blob

/-- The application state touched by the highlight handler:
`highlightCacheRef.current`, the displayed `pdfBlobUrl`, the
`isHighlighting` flag, the list of in-flight producer calls, and an
instrumentation counter of producer invocations (the spec's
producer-counter test harness). -/
structure AppState where
  cache : List (String × CacheEntry)
  pdfBlobUrl : String
  isHighlighting : Bool
  pending : List PendingCall
  producerCalls : Nat
deriving DecidableEq

/-- Initial state: empty session cache, the base document displayed. -/
def initialAppState : AppState :=
  { cache := [], pdfBlobUrl := "/cmc.pdf", isHighlighting := false,
    pending := [], producerCalls := 0 }

/-- Phase 1 of `handleHighlightSection(sectionText)`: the length guard,
the cache lookup (hit: surface the stored blob URL and return), and on a
miss `setIsHighlighting(true)` plus issuing the producer call, then
suspending at the `await`. -/
def handleCall (st : AppState) (sectionText : String) : AppState :=
  if sectionText = "" ∨ sectionText.length < 20 then st
  else
    let key := hashKey sectionText
    match mapGet st.cache key with
    | some cached => { st with pdfBlobUrl := cached.blobUrl, isHighlighting := false }
    | none =>
        { st with isHighlighting := true,
                  pending := st.pending ++ [⟨key, sectionText⟩],
                  producerCalls := st.producerCalls + 1 }

/-- How the awaited handler invocation completes for its own caller:
the source's `try`/`catch` swallows every producer error (logging only),
so the async function always resolves; it never rejects. -/
inductive HandlerOutcome
  | resolved
  | rejected (msg : String)
deriving DecidableEq

/-- Phase 2 of `handleHighlightSection`: the continuation after
`await axios.post` for the `i`-th in-flight call. On success the blob URL
is created, surfaced via `setPdfBlobUrl`, and stored in the cache; on
failure the `catch` block only logs. The `finally` block's delayed
`setIsHighlighting(false)` (a 600 ms timeout) is modelled as taking effect
with the response. -/
def handleRespond (st : AppState) (i : Nat) (result : Except String String) :
    AppState × HandlerOutcome :=
  match st.pending[i]? with
  | none => (st, .resolved)
  | some pc =>
    let st1 := { st with pending := st.pending.eraseIdx i }
    match result with
    | .ok blob =>
        let blobUrl := createObjectURL blob
        ({ st1 with pdfBlobUrl := blobUrl,
                    cache := mapSet st1.cache pc.key ⟨blobUrl, pc.text⟩,
                    isHighlighting := false }, .resolved)
    | .error _ =>
        ({ st1 with isHighlighting := false }, .resolved)

/-- One observable step of the cooperative event loop: either a new
invocation of the handler, or the arrival of a producer response for the
`i`-th in-flight call. -/
inductive Event
  | call (text : String)
  | respond (i : Nat) (result : Except String String)

/-- Run a sequence of interleaved events. -/
def runEvents (st : AppState) : List Event → AppState
  | [] => st
  | .call t :: es => runEvents (handleCall st t) es
  | .respond i r :: es => runEvents (handleRespond st i r).1 es

/-- A 21-character excerpt (above the 20-character threshold). -/
def exText : String := "abcdefghijklmnopqrstu"

/-- A second, distinct 22-character excerpt. -/
def exTextB : String := "zyxwvutsrqponmlkjihgfe"

/-- A state with one producer call in flight and nothing cached. -/
def exPendingState : AppState :=
  { cache := [], pdfBlobUrl := "/cmc.pdf", isHighlighting := true,
    pending := [⟨"k1", exText⟩], producerCalls := 1 }

theorem mapGet_mapSet_self :
    ∀ (m : List (String × CacheEntry)) (k : String) (v : CacheEntry),
      mapGet (mapSet m k v) k = some v := by
  intro m
  induction m with
  | nil => intro k v; simp [mapSet, mapGet]
  | cons p rest ih =>
    intro k v
    obtain ⟨k1, w⟩ := p
    by_cases h : k1 = k
    · simp [mapSet, h, mapGet]
    · simp [mapSet, h, mapGet, ih]

/-! ### C9: sub-threshold excerpts are a complete no-op -/

/-- C9: for every state and every excerpt shorter than 20 characters,
`handleHighlightSection` returns without invoking the producer and without
changing the cache, the displayed PDF URL, or the highlighting state: the
entire application state is untouched. -/
theorem handleCall_short_noop (st : AppState) (t : String) (h : t.length < 20) :
    handleCall st t = st := by
  unfold handleCall
  rw [if_pos (Or.inr h)]

/-- Witness for C9 at a concrete 9-character excerpt. -/
theorem handleCall_short_noop_witness :
    handleCall initialAppState "too short" = initialAppState :=
  handleCall_short_noop _ _ (by decide)

/-! ### C6: cache hits perform no backend work -/

/-- C6: for every actionable excerpt whose fingerprint already has a cache
entry, the handler surfaces the stored blob URL immediately and the
producer is not invoked: the producer counter, the in-flight list and the
cache itself are unchanged. -/
theorem handleCall_cache_hit (st : AppState) (t : String) (entry : CacheEntry)
    (h1 : ¬(t = "" ∨ t.length < 20))
    (h2 : mapGet st.cache (hashKey t) = some entry) :
    handleCall st t = { st with pdfBlobUrl := entry.blobUrl, isHighlighting := false } ∧
    (handleCall st t).producerCalls = st.producerCalls ∧
    (handleCall st t).cache = st.cache ∧
    (handleCall st t).pending = st.pending := by
  have hmain : handleCall st t
      = { st with pdfBlobUrl := entry.blobUrl, isHighlighting := false } := by
    simp only [handleCall]
    rw [if_neg h1, h2]
  exact ⟨hmain, by rw [hmain], by rw [hmain], by rw [hmain]⟩

/-- A state whose cache already holds an entry for `exText`. -/
def exCachedState : AppState :=
  { cache := [(hashKey exText, ⟨"blob:seed", exText⟩)], pdfBlobUrl := "/cmc.pdf",
    isHighlighting := false, pending := [], producerCalls := 5 }

/-- Witness for C6: a repeated request for the cached excerpt reuses the
stored blob URL and performs no producer call. -/
theorem handleCall_cache_hit_witness :
    handleCall exCachedState exText
      = { exCachedState with pdfBlobUrl := "blob:seed", isHighlighting := false } ∧
    (handleCall exCachedState exText).producerCalls = exCachedState.producerCalls ∧
    (handleCall exCachedState exText).cache = exCachedState.cache ∧
    (handleCall exCachedState exText).pending = exCachedState.pending :=
  handleCall_cache_hit exCachedState exText ⟨"blob:seed", exText⟩ (by decide)
    (by simp [exCachedState, mapGet])

/-! ### C3: there is no in-flight request coalescing -/

/-- C3 counterexample: two concurrent resolves with the same fingerprint
(both issued before either response arrives) invoke the producer twice,
not once — the code deduplicates only against completed cache entries and
tracks no in-flight calls. -/
theorem coalescing_counterexample :
    (runEvents initialAppState [.call exText, .call exText]).producerCalls = 2 ∧
    (runEvents initialAppState [.call exText, .call exText]).producerCalls ≠ 1 := by
  decide

/-- C3 amended: for every state with no cache entry for the excerpt's
fingerprint, two resolves for that same fingerprint issued while neither
has completed start two producer calls (one each); coalescing of an
in-flight call never happens. -/
theorem no_coalescing (st : AppState) (t : String)
    (h1 : ¬(t = "" ∨ t.length < 20))
    (h2 : mapGet st.cache (hashKey t) = none) :
    (runEvents st [.call t, .call t]).producerCalls = st.producerCalls + 2 := by
  have e1 : handleCall st t
      = { st with isHighlighting := true,
                  pending := st.pending ++ [⟨hashKey t, t⟩],
                  producerCalls := st.producerCalls + 1 } := by
    simp only [handleCall]
    rw [if_neg h1, h2]
  have e2 : handleCall (handleCall st t) t
      = { st with isHighlighting := true,
                  pending := (st.pending ++ [⟨hashKey t, t⟩]) ++ [⟨hashKey t, t⟩],
                  producerCalls := st.producerCalls + 1 + 1 } := by
    rw [e1]
    simp only [handleCall]
    rw [if_neg h1, h2]
  show (handleCall (handleCall st t) t).producerCalls = st.producerCalls + 2
  rw [e2]

/-- Witness for the amended C3 from the initial state. -/
theorem no_coalescing_witness :
    (runEvents initialAppState [.call exText, .call exText]).producerCalls
      = initialAppState.producerCalls + 2 :=
  no_coalescing _ _ (by decide) rfl

/-! ### C4: consumer-visible state is last-completion-wins, not last-request-wins -/

/-- C4 counterexample: request A (`exText`) is issued, then request B
(`exTextB`) is issued before A resolves; B's response arrives first and
A's arrives last. The displayed PDF URL ends up at A's artifact, not B's —
the claim requires B's result regardless of completion order. -/
theorem lastRequestWins_counterexample :
    (runEvents initialAppState
        [.call exText, .call exTextB, .respond 1 (.ok "artB"),
         .respond 0 (.ok "artA")]).pdfBlobUrl = "blob:artA" ∧
    (runEvents initialAppState
        [.call exText, .call exTextB, .respond 1 (.ok "artB"),
         .respond 0 (.ok "artA")]).pdfBlobUrl ≠ "blob:artB" := by
  decide

/-- C4 amended: the handler has no generation-token staleness check;
consumer-visible state follows last-completion-wins: every successful
producer response, stale or not, overwrites the displayed PDF URL when it
arrives (and is also written into the cache), so whichever of two
overlapping requests completes last in wall-clock time is the one
surfaced. -/
theorem last_completion_wins (st : AppState) (i : Nat) (pc : PendingCall)
    (blob : String) (h : st.pending[i]? = some pc) :
    (handleRespond st i (.ok blob)).1.pdfBlobUrl = createObjectURL blob ∧
    mapGet (handleRespond st i (.ok blob)).1.cache pc.key
      = some ⟨createObjectURL blob, pc.text⟩ := by
  unfold handleRespond
  rw [h]
  exact ⟨rfl, mapGet_mapSet_self _ _ _⟩

/-- Witness for the amended C4: the late response for the single in-flight
call is surfaced on arrival. -/
theorem last_completion_wins_witness :
    (handleRespond exPendingState 0 (.ok "lateArt")).1.pdfBlobUrl
      = createObjectURL "lateArt" ∧
    mapGet (handleRespond exPendingState 0 (.ok "lateArt")).1.cache "k1"
      = some ⟨createObjectURL "lateArt", exText⟩ :=
  last_completion_wins _ _ ⟨"k1", exText⟩ _ (by decide)

/-! ### C5: producer failures are swallowed, not surfaced; nothing is cached -/

/-- C5 counterexample: when the producer call fails, the handler's `catch`
only logs — the awaited operation resolves normally instead of rejecting
(while indeed caching nothing), contradicting the claim that the failure
is surfaced as a rejected operation to the caller. -/
theorem producer_failure_swallowed :
    (handleRespond exPendingState 0 (.error "network error")).2
      = HandlerOutcome.resolved ∧
    (handleRespond exPendingState 0 (.error "network error")).1.cache = [] := by
  decide

/-- C5 amended: on producer failure nothing is stored in the cache and a
later call for the same (still uncached) fingerprint starts a fresh
producer attempt; however the failure is caught and only logged — the
caller's awaited operation resolves normally, so the failure is not
surfaced as a rejection. -/
theorem producer_failure_not_cached (st : AppState) (i : Nat) (pc : PendingCall)
    (e : String) (t : String) (h : st.pending[i]? = some pc)
    (ht : ¬(t = "" ∨ t.length < 20))
    (hc : mapGet st.cache (hashKey t) = none) :
    (handleRespond st i (.error e)).1.cache = st.cache ∧
    (handleRespond st i (.error e)).2 = HandlerOutcome.resolved ∧
    (handleCall (handleRespond st i (.error e)).1 t).producerCalls
      = st.producerCalls + 1 := by
  unfold handleRespond
  rw [h]
  refine ⟨rfl, rfl, ?_⟩
  simp only [handleCall]
  rw [if_neg ht]
  show (match mapGet st.cache (hashKey t) with
        | some cached => _
        | none => _ : AppState).producerCalls = st.producerCalls + 1
  rw [hc]

/-- Witness for the amended C5: after a failed producer call, a retry for
the same excerpt invokes the producer afresh. -/
theorem producer_failure_not_cached_witness :
    (handleRespond exPendingState 0 (.error "boom")).1.cache = exPendingState.cache ∧
    (handleRespond exPendingState 0 (.error "boom")).2 = HandlerOutcome.resolved ∧
    (handleCall (handleRespond exPendingState 0 (.error "boom")).1 exText).producerCalls
      = exPendingState.producerCalls + 1 :=
  producer_failure_not_cached _ _ ⟨"k1", exText⟩ _ _ (by decide) (by decide) rfl

/-! ### C8: `normalize` is total on strings but throws on undefined -/

/-- C8 counterexample: `normalize(undefined)` does not return the empty
string — calling `.replace` on `undefined` throws a `TypeError` (every
call site guards the argument, e.g. `normalize(p.text || "")`). -/
theorem normalize_undefined_throws :
    normalizeJs none = Except.error "TypeError: Cannot read properties of undefined" ∧
    normalizeJs none ≠ Except.ok "" := by
  exact ⟨rfl, fun h => Except.noConfusion h⟩

/-- C8 amended: `normalize` is total on string inputs — for every string
it succeeds and returns a string, and it returns the empty string for the
empty string input (stripping line-break hyphenation, collapsing
whitespace runs, lower-casing and trimming); only an undefined argument
fails. -/
theorem normalize_total_on_strings :
    normalizeJs (some "") = Except.ok "" ∧
    ∀ s : String, ∃ r : String, normalizeJs (some s) = Except.ok r :=
  ⟨rfl, fun s => ⟨normalize s, rfl⟩⟩

end CMC
